import Mathlib

/-!
Verification of the comment-thread aggregation service.

The development shallowly embeds the three Python source files of the
repository (`api/_youtube.py`, `api/comments.py`, `api/health.py`):

* `urlparse`, `extract_video_id_from_url` — the identifier resolver,
  including the mini model of `urllib.parse.urlparse` / `parse_qs` that
  the resolver calls into;
* `normalize_params` — the parameter normalizer;
* `replyLoop`, `processThread`, `fetch_comment_threads` — the thread
  aggregator, with the upstream HTTP client abstracted into an oracle
  mapping each reply-listing request to the JSON response the upstream
  would deliver (the thread-listing response is likewise a parameter);
* `resolveVideoId`, `do_GET` — the request handler's control flow.

Machine strings are Lean `String`s (lists of characters), JSON numbers are
`Int`, and optional JSON fields are `Option`s, with the Python `.get`
defaulting made explicit.
-/

/-! ## Character-level string helpers (model of the Python stdlib pieces) -/

/-- Characters of a list up to (excluding) the first one satisfying `p`. -/
def takeUntil (p : Char → Bool) : List Char → List Char
  | [] => []
  | c :: cs => if p c then [] else c :: takeUntil p cs

/-- Remainder of a list from (including) the first character satisfying `p`. -/
def dropUntil (p : Char → Bool) : List Char → List Char
  | [] => []
  | c :: cs => if p c then c :: cs else dropUntil p cs

/-- Split at the first occurrence of `ch`: the part before, and the part
after the delimiter (empty when the delimiter is absent or final). -/
def splitOnChar (ch : Char) (l : List Char) : List Char × List Char :=
  (takeUntil (fun c => c = ch) l, (dropUntil (fun c => c = ch) l).drop 1)

/-- `l` ends with `suf`. -/
def endsWithL (l suf : List Char) : Bool :=
  l.drop (l.length - suf.length) = suf

/-! ## Model of `urllib.parse.urlparse` (the components the resolver uses) -/

/-- A scheme character: letters, digits, `+`, `-`, `.` (CPython's
`scheme_chars`). -/
def isSchemeChar (c : Char) : Bool :=
  c.isAlphanum || c = '+' || c = '-' || c = '.'

/-- CPython accepts `url[:i]` as a scheme when it starts with a letter and
continues with scheme characters. -/
def validScheme : List Char → Bool
  | [] => false
  | c :: cs => c.isAlpha && cs.all isSchemeChar

/-- Split off `scheme:` from the front of the URL, as CPython's `urlsplit`
does: the prefix before the first `:` must be a valid scheme, else nothing
is split.  The scheme is lowercased. -/
def splitScheme (l : List Char) : List Char × List Char :=
  let before := takeUntil (fun c => c = ':') l
  let after := dropUntil (fun c => c = ':') l
  if after ≠ [] ∧ validScheme before = true then (before.map Char.toLower, after.drop 1)
  else ([], l)

/-- A character that terminates the network location. -/
def isNetlocEnd (c : Char) : Bool :=
  c = '/' || c = '?' || c = '#'

/-- Split off the network location: only when the remainder starts with
`//`, and it extends to the next `/`, `?` or `#`. -/
def splitNetloc (l : List Char) : List Char × List Char :=
  if l.take 2 = ['/', '/'] then
    (takeUntil isNetlocEnd (l.drop 2), dropUntil isNetlocEnd (l.drop 2))
  else ([], l)

/-- A C0 control character or the space, lstripped from the URL
(CPython's `_WHATWG_C0_CONTROL_OR_SPACE`). -/
def isC0OrSpace (c : Char) : Bool :=
  c.toNat ≤ 32

/-- A character removed from anywhere in the URL (CPython's
`_UNSAFE_URL_BYTES_TO_REMOVE`: tab, carriage return, newline). -/
def isUnsafeUrlChar (c : Char) : Bool :=
  c = '\t' || c = '\r' || c = '\n'

/-- The components of a parsed URL, as CPython's `ParseResult` carries
them (the resolver consults netloc, path and query). -/
structure ParsedUrl where
  scheme : List Char
  netloc : List Char
  path : List Char
  params : List Char
  query : List Char
  fragment : List Char
deriving DecidableEq

/-- The schemes for which `urlparse` splits `;params` off the path
(CPython's `uses_params`). -/
def uses_params : List (List Char) :=
  ["".data, "ftp".data, "hdl".data, "prospero".data, "http".data, "imap".data,
   "https".data, "shttp".data, "rtsp".data, "rtsps".data, "rtspu".data,
   "sip".data, "sips".data, "mms".data, "sftp".data, "tel".data]

/-- Model of `_splitparams`: split at the first `;` of the last path
segment (of the whole path when it has no `/`); no split when that
segment has no `;`. -/
def splitParams (path : List Char) : List Char × List Char :=
  let rev := path.reverse
  let seg := (takeUntil (fun c => c = '/') rev).reverse
  let pre := (dropUntil (fun c => c = '/') rev).reverse
  if dropUntil (fun c => c = ';') seg ≠ [] then
    (pre ++ takeUntil (fun c => c = ';') seg,
     (dropUntil (fun c => c = ';') seg).drop 1)
  else (path, [])

/-- The params step of `urlparse`: `_splitparams` runs only when the
scheme uses params and the path contains a `;`. -/
def paramsSplit (scheme path : List Char) : List Char × List Char :=
  if scheme ∈ uses_params ∧ dropUntil (fun c => c = ';') path ≠ [] then
    splitParams path
  else (path, [])

/-- Model of `urllib.parse.urlparse`: the URL is lstripped of C0 controls
and spaces and cleared of tab/CR/LF everywhere, then split into scheme,
netloc (after `//`), the fragment after the first `#`, the query after the
first `?`, and finally `;params` is split off the last path segment for
the schemes that use params. -/
def urlparse (url : String) : ParsedUrl :=
  let l := (url.data.dropWhile isC0OrSpace).filter (fun c => !isUnsafeUrlChar c)
  let sr := splitScheme l
  let nr := splitNetloc sr.2
  let fr := splitOnChar '#' nr.2
  let qr := splitOnChar '?' fr.1
  let pp := paramsSplit sr.1 qr.1
  ⟨sr.1, nr.1, pp.1, pp.2, qr.2, fr.2⟩

/-! ## Model of `urllib.parse.parse_qs` (only the lookup of one key) -/

/-- Hex digit value, if any. -/
def hexVal (c : Char) : Option Nat :=
  if '0' ≤ c ∧ c ≤ '9' then some (c.toNat - '0'.toNat)
  else if 'a' ≤ c ∧ c ≤ 'f' then some (c.toNat - 'a'.toNat + 10)
  else if 'A' ≤ c ∧ c ≤ 'F' then some (c.toNat - 'A'.toNat + 10)
  else none

/-- Model of `urllib.parse.unquote_plus` on the character level: `+`
becomes a space, a valid `%XX` escape becomes the character with that code,
an invalid escape is left as-is. -/
def unquotePlus : List Char → List Char
  | [] => []
  | '+' :: cs => ' ' :: unquotePlus cs
  | '%' :: c1 :: c2 :: cs =>
    match hexVal c1, hexVal c2 with
    | some h1, some h2 => Char.ofNat (16 * h1 + h2) :: unquotePlus cs
    | _, _ => '%' :: unquotePlus (c1 :: c2 :: cs)
  | c :: cs => c :: unquotePlus cs

/-- Split a query string on `&` into its field segments. -/
def splitAmp : List Char → List (List Char)
  | [] => [[]]
  | c :: cs =>
    if c = '&' then [] :: splitAmp cs
    else
      match splitAmp cs with
      | [] => [[c]]
      | s :: rest => (c :: s) :: rest

/-- First value listed under decoded key `v` among the query segments, as
`parse_qs` builds it: segments without `=` or with an empty raw value are
skipped, names and values are percent-plus decoded. -/
def qsFirstV : List (List Char) → Option (List Char)
  | [] => none
  | seg :: rest =>
    match dropUntil (fun c => c = '=') seg with
    | [] => qsFirstV rest
    | _ :: v =>
      if v = [] then qsFirstV rest
      else if unquotePlus (takeUntil (fun c => c = '=') seg) = ['v'] then
        some (unquotePlus v)
      else qsFirstV rest

/-! ## The identifier resolver (`extract_video_id_from_url`) -/

/-- A character the fallback pattern `[A-Za-z0-9_-]` accepts. -/
def isIdChar (c : Char) : Bool :=
  c.isAlphanum || c = '_' || c = '-'

/-- Leftmost run of exactly 11 id characters, as `re.search` finds it
(model of the pattern `([A-Za-z0-9_-]{11})`). -/
def run11 : List Char → Option (List Char)
  | [] => none
  | c :: cs =>
    if ((c :: cs).take 11).length = 11 ∧ ((c :: cs).take 11).all isIdChar then
      some ((c :: cs).take 11)
    else run11 cs

/-- The constant characters the embed pattern requires before the id. -/
def embedPat : List Char := '/' :: 'e' :: 'm' :: 'b' :: 'e' :: 'd' :: '/' :: []

/-- Leftmost match of `/embed/([A-Za-z0-9_-]{11})` in the path, returning
the captured group. -/
def findEmbed : List Char → Option (List Char)
  | [] => none
  | c :: cs =>
    if (c :: cs).take 7 = embedPat ∧ (((c :: cs).drop 7).take 11).length = 11 ∧
        (((c :: cs).drop 7).take 11).all isIdChar then
      some (((c :: cs).drop 7).take 11)
    else findEmbed cs

/-- Embedding of `extract_video_id_from_url` (`api/_youtube.py`):
short-link host first, then the long-form host (query parameter `v`, then
the embed pattern on the path), then the heuristic 11-character scan of the
whole original URL string; `none` when nothing matches. -/
def extract_video_id_from_url (url : String) : Option String :=
  let parsed := urlparse url
  if parsed.netloc = "youtu.be".data then
    let vid := parsed.path.dropWhile (fun c => c = '/')
    if vid = [] then none else some (String.mk vid)
  else if endsWithL parsed.netloc "youtube.com".data then
    match qsFirstV (splitAmp parsed.query) with
    | some v => some (String.mk v)
    | none =>
      match findEmbed parsed.path with
      | some m => some (String.mk m)
      | none => Option.map String.mk (run11 url.data)
  else Option.map String.mk (run11 url.data)

/-! ## The parameter normalizer (`normalize_params`) -/

/-- Model of `str.lower` (ASCII case folding). -/
def pyLower (s : String) : String :=
  String.mk (s.data.map Char.toLower)

/-- Embedding of `normalize_params` (`api/_youtube.py`): the page size
defaults to 20 and is clamped into `[1, 100]`; the order string defaults to
`"relevance"` (also on the empty string, which is falsy in Python), is
lowercased, and falls back to `"relevance"` unless it is `"relevance"` or
`"time"`. -/
def normalize_params (max_results : Option Int) (order : Option String) : Int × String :=
  let mr : Int :=
    match max_results with
    | none => 20
    | some n => max 1 (min n 100)
  let od0 : String :=
    match order with
    | none => "relevance"
    | some s => if s = "" then "relevance" else s
  let od1 := pyLower od0
  let od := if od1 = "relevance" ∨ od1 = "time" then od1 else "relevance"
  (mr, od)

/-! ## Data model: raw upstream JSON shapes and normalized comments -/

/-- The `authorChannelId` object of a comment snippet. -/
structure AuthorChannelId where
  value : Option String
deriving DecidableEq

/-- The fields of a raw comment `snippet` object that the aggregator
reads; every one may be absent. -/
structure CommentSnippet where
  textDisplay : Option String
  authorDisplayName : Option String
  authorChannelId : Option AuthorChannelId
  publishedAt : Option String
  updatedAt : Option String
  likeCount : Option Int
  parentId : Option String
deriving DecidableEq

/-- The empty dict that `item.get("snippet", {})` substitutes. -/
def emptyCommentSnippet : CommentSnippet :=
  ⟨none, none, none, none, none, none, none⟩

/-- A raw comment resource: its `id` and its `snippet`. -/
structure RawComment where
  id : Option String
  snippet : Option CommentSnippet
deriving DecidableEq

/-- The empty dict that `snippet.get("topLevelComment", {})` substitutes. -/
def emptyRawComment : RawComment := ⟨none, none⟩

/-- The `replies` object of a raw thread item. -/
structure RawReplies where
  comments : Option (List RawComment)
deriving DecidableEq

/-- The `snippet` object of a raw thread item. -/
structure ThreadSnippet where
  topLevelComment : Option RawComment
  totalReplyCount : Option Int
deriving DecidableEq

/-- The empty dict that `item.get("snippet", {})` substitutes for a thread. -/
def emptyThreadSnippet : ThreadSnippet := ⟨none, none⟩

/-- One raw item of a `commentThreads` listing response. -/
structure RawThreadItem where
  id : Option String
  snippet : Option ThreadSnippet
  replies : Option RawReplies
deriving DecidableEq

/-- A normalized comment as the aggregator emits it. -/
structure Comment where
  id : Option String
  text : Option String
  author : Option String
  authorChannelId : Option String
  publishedAt : Option String
  updatedAt : Option String
  likeCount : Int
  isReply : Bool
  parentId : Option String
deriving DecidableEq

/-- Model of `(snippet.get("authorChannelId") or {}).get("value")`. -/
def acidValue : Option AuthorChannelId → Option String
  | none => none
  | some a => a.value

/-- The normalized top-level comment built from a raw
`topLevelComment` resource (`api/_youtube.py`, the `top_comment` dict). -/
def mkTopLevelComment (tlc : RawComment) : Comment :=
  let top := tlc.snippet.getD emptyCommentSnippet
  ⟨tlc.id, top.textDisplay, top.authorDisplayName, acidValue top.authorChannelId,
   top.publishedAt, top.updatedAt, top.likeCount.getD 0, false, none⟩

/-- The normalized reply built from a raw comment resource (the dict
appended to `replies_payload`, both for inline and for fetched replies). -/
def mkReplyComment (r : RawComment) : Comment :=
  let rs := r.snippet.getD emptyCommentSnippet
  ⟨r.id, rs.textDisplay, rs.authorDisplayName, acidValue rs.authorChannelId,
   rs.publishedAt, rs.updatedAt, rs.likeCount.getD 0, true, rs.parentId⟩

/-- A normalized thread of the result document. -/
structure Thread where
  threadId : Option String
  topLevelComment : Comment
  replyCount : Int
  replies : List Comment
deriving DecidableEq

/-- The overall result document of `fetch_comment_threads`. -/
structure CommentPage where
  videoId : String
  nextPageToken : Option String
  threads : List Thread
deriving DecidableEq

/-! ## The per-thread reply-pagination loop -/

/-- The parameters of one `comments.list` request that vary inside the
loop: the requested batch size and the continuation token. -/
structure ReplyRequest where
  limit : Int
  pageToken : Option String
deriving DecidableEq

/-- The fields of a `comments.list` response that the loop reads. -/
structure ReplyResponse where
  items : List RawComment
  nextPageToken : Option String
deriving DecidableEq

/-- One executed iteration of the reply loop: the request it issued, the
response it received, and the value of the `fetched` counter on entry. -/
structure ReplyStep where
  req : ReplyRequest
  resp : ReplyResponse
  fetchedBefore : Nat
deriving DecidableEq

/-- The `fetched` counter right after the step's items were appended. -/
def fetchedAfter (s : ReplyStep) : Nat :=
  s.fetchedBefore + s.resp.items.length

/-- Python truthiness of the optional `nextPageToken` string. -/
def truthyStr : Option String → Bool
  | none => false
  | some s => !s.isEmpty

/-- The request the loop body builds:
`maxResults = min(100, max_replies_per_thread - fetched)` with the current
continuation token. -/
def mkReq (budget : Int) (fetched : Nat) (token : Option String) : ReplyRequest :=
  ⟨min 100 (budget - (fetched : Int)), token⟩

/-- Embedding of the `while fetched < max_replies_per_thread` loop of
`fetch_comment_threads`, as the trace of its iterations.  `oracle` maps a
request to the upstream response.  Each iteration records one step; the
loop continues exactly when the response carries a truthy continuation
token and a nonempty batch (the `if not next_token or not ritems: break`
guard) and the incremented counter is still below the budget. -/
def replyLoop (oracle : ReplyRequest → ReplyResponse) (budget : Int)
    (fetched : Nat) (token : Option String) : List ReplyStep :=
  if h : (fetched : Int) < budget then
    if h2 : truthyStr (oracle (mkReq budget fetched token)).nextPageToken = true ∧
        (oracle (mkReq budget fetched token)).items ≠ [] then
      ⟨mkReq budget fetched token, oracle (mkReq budget fetched token), fetched⟩ ::
        replyLoop oracle budget (fetched + (oracle (mkReq budget fetched token)).items.length)
          (oracle (mkReq budget fetched token)).nextPageToken
    else
      [⟨mkReq budget fetched token, oracle (mkReq budget fetched token), fetched⟩]
  else []
termination_by (budget - (fetched : Int)).toNat
decreasing_by
  have hlen : 0 < (oracle (mkReq budget fetched token)).items.length :=
    List.length_pos.mpr h2.2
  omega

/-- All raw items delivered across the steps of a trace, in order. -/
def stepsItems : List ReplyStep → List RawComment
  | [] => []
  | s :: t => s.resp.items ++ stepsItems t

/-! ## The thread aggregator (`fetch_comment_threads`) -/

/-- The raw reply comments embedded inline in a thread item:
`(item.get("replies") or {}).get("comments") or []`. -/
def inlineRawReplies (item : RawThreadItem) : List RawComment :=
  match item.replies with
  | none => []
  | some rp => rp.comments.getD []

/-- The normalized inline replies of a thread item. -/
def inlineReplies (item : RawThreadItem) : List Comment :=
  (inlineRawReplies item).map mkReplyComment

/-- `snippet.get("totalReplyCount", 0)` of a thread item. -/
def itemReplyCount (item : RawThreadItem) : Int :=
  ((item.snippet.getD emptyThreadSnippet).totalReplyCount).getD 0

/-- `snippet.get("topLevelComment", {})` of a thread item. -/
def itemTopRaw (item : RawThreadItem) : RawComment :=
  (item.snippet.getD emptyThreadSnippet).topLevelComment.getD emptyRawComment

/-- The reply-loop trace run for one thread item: the loop runs only when
`include_replies` is set, the reported reply count is truthy, and the
inline replies fall short of it; otherwise no reply-listing request is
issued.  The reply oracle is addressed by the parent comment id. -/
def threadReplyTrace (oracle : Option String → ReplyRequest → ReplyResponse)
    (includeReplies : Bool) (maxRepliesPerThread : Int) (item : RawThreadItem) :
    List ReplyStep :=
  if includeReplies = true ∧ itemReplyCount item ≠ 0 ∧
      ((inlineReplies item).length : Int) < itemReplyCount item then
    replyLoop (oracle (itemTopRaw item).id) maxRepliesPerThread 0 none
  else []

/-- The normalized thread built for one raw item: the inline replies are
collected first, and every separately fetched reply is appended after
them, in fetch order, with no deduplication. -/
def processThread (oracle : Option String → ReplyRequest → ReplyResponse)
    (includeReplies : Bool) (maxRepliesPerThread : Int) (item : RawThreadItem) :
    Thread :=
  { threadId := item.id,
    topLevelComment := mkTopLevelComment (itemTopRaw item),
    replyCount := itemReplyCount item,
    replies := inlineReplies item ++
      (stepsItems (threadReplyTrace oracle includeReplies maxRepliesPerThread item)).map
        mkReplyComment }

/-- The fields of a `commentThreads` listing response that the aggregator
reads. -/
structure ThreadListResponse where
  items : List RawThreadItem
  nextPageToken : Option String
deriving DecidableEq

/-- Embedding of `fetch_comment_threads`: one thread-listing call (its
response is the `listThreads` parameter), each raw item normalized in
order, and the top-level continuation token passed through. -/
def fetch_comment_threads (listThreads : ThreadListResponse)
    (oracle : Option String → ReplyRequest → ReplyResponse)
    (videoId : String) (includeReplies : Bool) (maxRepliesPerThread : Int) :
    CommentPage :=
  { videoId := videoId,
    nextPageToken := listThreads.nextPageToken,
    threads := listThreads.items.map
      (processThread oracle includeReplies maxRepliesPerThread) }

/-! ## The request handler (`api/comments.py`) -/

/-- Model of `str.strip` on the credential read from the environment. -/
def pyStrip (s : String) : String := s.trim

/-- The query parameters `_parse_query` delivers (strings already
stripped, flags already decoded). -/
structure Query where
  url : String
  videoId : String
  pageToken : Option String
  order : Option String
  includeReplies : Bool
  maxResults : Option Int
  maxRepliesPerThread : Int
deriving DecidableEq

/-- The observable outcome of `do_GET` that the claims speak about: the
HTTP status, whether the body carries an `error` field, and whether any
upstream call was made. -/
structure HandlerOutcome where
  status : Nat
  hasErrorField : Bool
  upstreamCalled : Bool
deriving DecidableEq

/-- The identifier resolution step of `do_GET`: the `videoId` parameter
takes precedence; only when it is empty and a `url` was given is the
resolver consulted, its `None` coerced to the empty string. -/
def resolveVideoId (q : Query) : String :=
  if q.videoId = "" ∧ q.url ≠ "" then
    (extract_video_id_from_url q.url).getD ""
  else q.videoId

/-- Embedding of the control flow of `handler.do_GET`: missing identifier
→ 400 with an error body and no upstream call; blank credential → 500 with
an error body and no upstream call; otherwise the aggregator runs and the
response is the 200 document. -/
def do_GET (q : Query) (apiKeyEnv : String) : HandlerOutcome :=
  if resolveVideoId q = "" then ⟨400, true, false⟩
  else if pyStrip apiKeyEnv = "" then ⟨500, true, false⟩
  else ⟨200, false, true⟩

/-! ## Observation predicates on loop steps (the claims' stop conditions) -/

/-- The loop proceeds past a step: the response carried a truthy
continuation token, a nonempty batch, and the counter is still below the
budget. -/
def contCond (budget : Int) (s : ReplyStep) : Prop :=
  truthyStr s.resp.nextPageToken = true ∧ s.resp.items ≠ [] ∧
    (fetchedAfter s : Int) < budget

/-- The loop halts after a step: no truthy continuation token, or an empty
batch, or the counter reached the budget. -/
def stopCond (budget : Int) (s : ReplyStep) : Prop :=
  truthyStr s.resp.nextPageToken = false ∨ s.resp.items = [] ∨
    budget ≤ (fetchedAfter s : Int)

/-! ## Unfolding lemmas for the reply loop -/

theorem replyLoop_neg {oracle : ReplyRequest → ReplyResponse} {budget : Int}
    {fetched : Nat} {token : Option String} (h : ¬ ((fetched : Int) < budget)) :
    replyLoop oracle budget fetched token = [] := by
  rw [replyLoop.eq_def, dif_neg h]

theorem replyLoop_cont {oracle : ReplyRequest → ReplyResponse} {budget : Int}
    {fetched : Nat} {token : Option String} (h : (fetched : Int) < budget)
    (h2 : truthyStr (oracle (mkReq budget fetched token)).nextPageToken = true ∧
      (oracle (mkReq budget fetched token)).items ≠ []) :
    replyLoop oracle budget fetched token =
      ⟨mkReq budget fetched token, oracle (mkReq budget fetched token), fetched⟩ ::
        replyLoop oracle budget
          (fetched + (oracle (mkReq budget fetched token)).items.length)
          (oracle (mkReq budget fetched token)).nextPageToken := by
  rw [replyLoop.eq_def, dif_pos h, dif_pos h2]

theorem replyLoop_stop {oracle : ReplyRequest → ReplyResponse} {budget : Int}
    {fetched : Nat} {token : Option String} (h : (fetched : Int) < budget)
    (h2 : ¬ (truthyStr (oracle (mkReq budget fetched token)).nextPageToken = true ∧
      (oracle (mkReq budget fetched token)).items ≠ [])) :
    replyLoop oracle budget fetched token =
      [⟨mkReq budget fetched token, oracle (mkReq budget fetched token), fetched⟩] := by
  rw [replyLoop.eq_def, dif_pos h, dif_neg h2]

/-! ## The loop invariant -/

theorem replyLoop_inv (oracle : ReplyRequest → ReplyResponse) (budget : Int) :
    ∀ (n fetched : Nat) (token : Option String),
      (budget - (fetched : Int)).toNat ≤ n →
      ((replyLoop oracle budget fetched token = [] ↔ budget ≤ (fetched : Int)) ∧
        (replyLoop oracle budget fetched token).length ≤ (budget - (fetched : Int)).toNat ∧
        (∀ s ∈ (replyLoop oracle budget fetched token).dropLast, contCond budget s) ∧
        (∀ s, (replyLoop oracle budget fetched token).getLast? = some s →
          stopCond budget s) ∧
        (∀ s ∈ replyLoop oracle budget fetched token,
          s.req.limit = min 100 (budget - (s.fetchedBefore : Int)))) := by
  intro n
  induction n with
  | zero =>
    intro fetched token hm
    have hb : ¬ ((fetched : Int) < budget) := by omega
    rw [replyLoop_neg hb]
    exact ⟨by simpa using (by omega : budget ≤ (fetched : Int)), by simp, by simp,
      by simp, by simp⟩
  | succ n ih =>
    intro fetched token hm
    by_cases hb : (fetched : Int) < budget
    · obtain ⟨R, hR⟩ : ∃ R, oracle (mkReq budget fetched token) = R := ⟨_, rfl⟩
      by_cases h2 : truthyStr R.nextPageToken = true ∧ R.items ≠ []
      · -- the loop continues past this step
        have h2' : truthyStr (oracle (mkReq budget fetched token)).nextPageToken = true ∧
            (oracle (mkReq budget fetched token)).items ≠ [] := by rw [hR]; exact h2
        rw [replyLoop_cont hb h2', hR]
        have hlen : 0 < R.items.length := List.length_pos.mpr h2.2
        have hrec := ih (fetched + R.items.length) R.nextPageToken (by omega)
        refine ⟨?_, ?_, ?_, ?_, ?_⟩
        · exact ⟨fun hc => (List.cons_ne_nil _ _ hc).elim,
            fun hc => ((by omega : ¬ budget ≤ (fetched : Int)) hc).elim⟩
        · have := hrec.2.1
          simp only [List.length_cons]
          omega
        · rcases hre : replyLoop oracle budget (fetched + R.items.length) R.nextPageToken
            with _ | ⟨r, t⟩
          · simp
          · rw [← hre]
            rw [List.dropLast_cons_of_ne_nil (by rw [hre]; exact List.cons_ne_nil r t)]
            intro s hs
            rcases List.mem_cons.mp hs with hs1 | hs2
            · subst hs1
              refine ⟨h2.1, h2.2, ?_⟩
              have hne : ¬ budget ≤ ((fetched + R.items.length : Nat) : Int) := by
                intro hc
                rw [hrec.1.mpr hc] at hre
                exact List.cons_ne_nil r t hre.symm
              simp only [fetchedAfter]
              omega
            · exact hrec.2.2.1 s hs2
        · rcases hre : replyLoop oracle budget (fetched + R.items.length) R.nextPageToken
            with _ | ⟨r, t⟩
          · intro s hs
            have hstop : budget ≤ ((fetched + R.items.length : Nat) : Int) := hrec.1.mp hre
            simp only [List.getLast?_singleton, Option.some.injEq] at hs
            subst hs
            right; right
            simp only [fetchedAfter]
            omega
          · intro s hs
            rw [List.getLast?_cons_cons] at hs
            refine hrec.2.2.2.1 s ?_
            rw [hre]
            exact hs
        · intro s hs
          rcases List.mem_cons.mp hs with hs1 | hs2
          · subst hs1
            rfl
          · exact hrec.2.2.2.2 s hs2
      · -- the loop halts after this step
        have h2' : ¬ (truthyStr (oracle (mkReq budget fetched token)).nextPageToken = true ∧
            (oracle (mkReq budget fetched token)).items ≠ []) := by rw [hR]; exact h2
        rw [replyLoop_stop hb h2', hR]
        refine ⟨?_, ?_, by simp, ?_, ?_⟩
        · exact ⟨fun hc => (List.cons_ne_nil _ _ hc).elim,
            fun hc => ((by omega : ¬ budget ≤ (fetched : Int)) hc).elim⟩
        · simp only [List.length_singleton]
          omega
        · intro s hs
          simp only [List.getLast?_singleton, Option.some.injEq] at hs
          subst hs
          rcases not_and_or.mp h2 with hc | hc
          · left
            simpa using hc
          · right; left
            simpa using hc
        · intro s hs
          rcases List.mem_singleton.mp hs with hs1
          subst hs1
          rfl
    · rw [replyLoop_neg hb]
      exact ⟨by simpa using (by omega : budget ≤ (fetched : Int)), by simp, by simp,
        by simp, by simp⟩

/-! ## Fetched-items bound when the upstream honors batch sizes -/

theorem replyLoop_items_le (oracle : ReplyRequest → ReplyResponse) (budget : Int)
    (honors : ∀ req : ReplyRequest, 0 < req.limit →
      ((oracle req).items.length : Int) ≤ req.limit) :
    ∀ (n fetched : Nat) (token : Option String),
      (budget - (fetched : Int)).toNat ≤ n → (fetched : Int) ≤ budget →
      (fetched : Int) + (stepsItems (replyLoop oracle budget fetched token)).length ≤
        budget := by
  intro n
  induction n with
  | zero =>
    intro fetched token hm hf
    have hb : ¬ ((fetched : Int) < budget) := by omega
    rw [replyLoop_neg hb]
    simpa [stepsItems] using hf
  | succ n ih =>
    intro fetched token hm hf
    by_cases hb : (fetched : Int) < budget
    · have hhon := honors (mkReq budget fetched token) (by simp only [mkReq]; omega)
      obtain ⟨R, hR⟩ : ∃ R, oracle (mkReq budget fetched token) = R := ⟨_, rfl⟩
      rw [hR] at hhon
      have hhon' : (R.items.length : Int) ≤ min 100 (budget - (fetched : Int)) := hhon
      have hf2 : ((fetched + R.items.length : Nat) : Int) ≤ budget := by push_cast; omega
      by_cases h2 : truthyStr R.nextPageToken = true ∧ R.items ≠ []
      · have h2' : truthyStr (oracle (mkReq budget fetched token)).nextPageToken = true ∧
            (oracle (mkReq budget fetched token)).items ≠ [] := by rw [hR]; exact h2
        rw [replyLoop_cont hb h2', hR]
        have hlen : 0 < R.items.length := List.length_pos.mpr h2.2
        have hrec := ih (fetched + R.items.length) R.nextPageToken (by omega) hf2
        simp only [stepsItems, List.length_append]
        push_cast at hrec ⊢
        omega
      · have h2' : ¬ (truthyStr (oracle (mkReq budget fetched token)).nextPageToken = true ∧
            (oracle (mkReq budget fetched token)).items ≠ []) := by rw [hR]; exact h2
        rw [replyLoop_stop hb h2', hR]
        simp only [stepsItems, List.length_append, List.length_nil]
        push_cast at hf2 ⊢
        omega
    · rw [replyLoop_neg hb]
      simpa [stepsItems] using hf

/-! ## Lemmas on the character scanners -/

theorem takeUntil_of_all {p : Char → Bool} :
    ∀ (l : List Char), (∀ c ∈ l, p c = false) → takeUntil p l = l := by
  intro l
  induction l with
  | nil => intro _; rfl
  | cons c cs ih =>
    intro h
    have hc := h c (List.mem_cons_self c cs)
    simp [takeUntil, hc, ih (fun d hd => h d (List.mem_cons_of_mem c hd))]

theorem dropUntil_of_all {p : Char → Bool} :
    ∀ (l : List Char), (∀ c ∈ l, p c = false) → dropUntil p l = [] := by
  intro l
  induction l with
  | nil => intro _; rfl
  | cons c cs ih =>
    intro h
    have hc := h c (List.mem_cons_self c cs)
    simp [dropUntil, hc, ih (fun d hd => h d (List.mem_cons_of_mem c hd))]

theorem takeUntil_dropUntil_append (p : Char → Bool) :
    ∀ (l1 l2 : List Char), dropUntil p l1 ≠ [] →
      takeUntil p (l1 ++ l2) = takeUntil p l1 ∧
      dropUntil p (l1 ++ l2) = dropUntil p l1 ++ l2 := by
  intro l1
  induction l1 with
  | nil => intro l2 h; exact absurd rfl h
  | cons c cs ih =>
    intro l2 h
    by_cases hc : p c = true
    · constructor <;> simp [takeUntil, dropUntil, hc]
    · have hc' : p c = false := by simpa using hc
      have hd : dropUntil p cs ≠ [] := by simpa [dropUntil, hc'] using h
      have hrec := ih l2 hd
      constructor <;> simp [takeUntil, dropUntil, hc', hrec.1, hrec.2]

theorem dropWhile_of_all {p : Char → Bool} :
    ∀ (l : List Char), (∀ c ∈ l, p c = false) → List.dropWhile p l = l := by
  intro l
  induction l with
  | nil => intro _; rfl
  | cons c cs _ =>
    intro h
    have hc := h c (List.mem_cons_self c cs)
    simp [List.dropWhile_cons, hc]

theorem String.mk_data_eq (s : String) : String.mk s.data = s := by
  cases s
  rfl

/-! ## The parsed form of a short-link URL -/

theorem urlparse_shortlink (id : String)
    (h : ∀ c ∈ id.data, ¬ c = '/' ∧ ¬ c = '?' ∧ ¬ c = '#' ∧ ¬ c = ';' ∧
      ¬ c = '\t' ∧ ¬ c = '\r' ∧ ¬ c = '\n') :
    urlparse ("https://youtu.be/" ++ id) =
      ⟨"https".data, "youtu.be".data, '/' :: id.data, [], [], []⟩ := by
  have hdata : ("https://youtu.be/" ++ id).data = "https://youtu.be/".data ++ id.data := rfl
  have hstrip : ("https://youtu.be/".data ++ id.data).dropWhile isC0OrSpace =
      "https://youtu.be/".data ++ id.data := rfl
  have hfilter : ("https://youtu.be/".data ++ id.data).filter (fun c => !isUnsafeUrlChar c) =
      "https://youtu.be/".data ++ id.data := by
    rw [List.filter_append]
    have h1 : "https://youtu.be/".data.filter (fun c => !isUnsafeUrlChar c) =
        "https://youtu.be/".data := by decide
    have h2 : id.data.filter (fun c => !isUnsafeUrlChar c) = id.data := by
      rw [List.filter_eq_self]
      intro c hc
      have hcc := h c hc
      simp [isUnsafeUrlChar, hcc.2.2.2.2.1, hcc.2.2.2.2.2.1, hcc.2.2.2.2.2.2]
    rw [h1, h2]
  have hA : splitScheme ("https://youtu.be/".data ++ id.data) =
      ("https".data, "//youtu.be/".data ++ id.data) := by
    obtain ⟨ht, hd⟩ := takeUntil_dropUntil_append (fun c => c = ':')
      "https://youtu.be/".data id.data (by decide)
    have htake : takeUntil (fun c => c = ':') "https://youtu.be/".data = "https".data := by
      decide
    have hdrop : dropUntil (fun c => c = ':') "https://youtu.be/".data =
        ':' :: "//youtu.be/".data := by decide
    have hv : validScheme "https".data = true := by decide
    have hmap : "https".data.map Char.toLower = "https".data := by decide
    simp only [splitScheme]
    rw [ht, hd, htake, hdrop]
    rw [if_pos ⟨by simp, hv⟩]
    rw [hmap]
    simp
  have hB : splitNetloc ("//youtu.be/".data ++ id.data) =
      ("youtu.be".data, '/' :: id.data) := by
    obtain ⟨ht, hd⟩ := takeUntil_dropUntil_append isNetlocEnd
      ['y', 'o', 'u', 't', 'u', '.', 'b', 'e', '/'] id.data (by decide)
    have htake : takeUntil isNetlocEnd ['y', 'o', 'u', 't', 'u', '.', 'b', 'e', '/'] =
        ['y', 'o', 'u', 't', 'u', '.', 'b', 'e'] := by decide
    have hdrop : dropUntil isNetlocEnd ['y', 'o', 'u', 't', 'u', '.', 'b', 'e', '/'] =
        ['/'] := by decide
    have h2 : "//youtu.be/".data ++ id.data =
        '/' :: '/' :: (['y', 'o', 'u', 't', 'u', '.', 'b', 'e', '/'] ++ id.data) := rfl
    have htk : ('/' :: '/' :: (['y', 'o', 'u', 't', 'u', '.', 'b', 'e', '/'] ++ id.data)).take 2 =
        ['/', '/'] := rfl
    have hdr : ('/' :: '/' :: (['y', 'o', 'u', 't', 'u', '.', 'b', 'e', '/'] ++ id.data)).drop 2 =
        ['y', 'o', 'u', 't', 'u', '.', 'b', 'e', '/'] ++ id.data := rfl
    rw [h2]
    simp only [splitNetloc]
    rw [htk, hdr, if_pos rfl, ht, hd, htake, hdrop]
    simp
  have hnoq : ∀ c ∈ '/' :: id.data, (fun c => decide (c = '?')) c = false := by
    intro c hc
    rcases List.mem_cons.mp hc with hc1 | hc2
    · subst hc1; decide
    · exact decide_eq_false (h c hc2).2.1
  have hnof : ∀ c ∈ '/' :: id.data, (fun c => decide (c = '#')) c = false := by
    intro c hc
    rcases List.mem_cons.mp hc with hc1 | hc2
    · subst hc1; decide
    · exact decide_eq_false (h c hc2).2.2.1
  have hC : splitOnChar '#' ('/' :: id.data) = ('/' :: id.data, []) := by
    simp [splitOnChar, takeUntil_of_all _ hnof, dropUntil_of_all _ hnof]
  have hD : splitOnChar '?' ('/' :: id.data) = ('/' :: id.data, []) := by
    simp [splitOnChar, takeUntil_of_all _ hnoq, dropUntil_of_all _ hnoq]
  have hsemi : dropUntil (fun c => c = ';') ('/' :: id.data) = [] := by
    apply dropUntil_of_all
    intro c hc
    rcases List.mem_cons.mp hc with hc1 | hc2
    · subst hc1; decide
    · exact decide_eq_false (h c hc2).2.2.2.1
  have hpp : paramsSplit "https".data ('/' :: id.data) = ('/' :: id.data, []) := by
    unfold paramsSplit
    have hnc : ¬ ("https".data ∈ uses_params ∧
        dropUntil (fun c => c = ';') ('/' :: id.data) ≠ []) :=
      fun hcc => hcc.2 hsemi
    rw [if_neg hnc]
  simp only [urlparse, hdata, hstrip, hfilter, hA, hB, hC, hD, hpp]

/-! ## Concrete data used by the claim witnesses and counterexamples -/

/-- A minimal raw comment resource. -/
def rStub : RawComment := ⟨some "r", none⟩

/-- A reply oracle that answers every request with the empty batch. -/
def oracleNil : Option String → ReplyRequest → ReplyResponse :=
  fun _ _ => ⟨[], none⟩

/-- The C1 scenario thread: reported reply count 50, five inline replies. -/
def itemC1 : RawThreadItem :=
  ⟨some "t1", some ⟨some ⟨some "top1", none⟩, some 50⟩,
    some ⟨some (List.replicate 5 rStub)⟩⟩

/-- An upstream that always fills the requested batch size exactly and
always offers a continuation token. -/
def oracleC1 : Option String → ReplyRequest → ReplyResponse :=
  fun _ req => ⟨List.replicate req.limit.toNat rStub, some "tok"⟩

/-! ## Claim C1 -/

/-- C1, as stated, is false on the code: the loop counter `fetched` starts
at zero and ignores the inline replies, so for the thread with reported
replyCount 50, five inline replies, includeReplies set and
maxRepliesPerThread 20, the replies sequence has length 25 (5 inline + 20
fetched), not 20, and the first batch is requested with size
min(100, 20 - 0) = 20, not min(100, 20 - 5) = 15. -/
theorem claim_C1_counterexample :
    (processThread oracleC1 true 20 itemC1).replies.length = 25 ∧
    ¬ (processThread oracleC1 true 20 itemC1).replies.length = 20 ∧
    (threadReplyTrace oracleC1 true 20 itemC1).map (fun s => s.req.limit) = [20] ∧
    ¬ (threadReplyTrace oracleC1 true 20 itemC1).map (fun s => s.req.limit) = [15] := by
  have hcond : itemReplyCount itemC1 ≠ 0 ∧
      ((inlineReplies itemC1).length : Int) < itemReplyCount itemC1 :=
    ⟨by decide, by decide⟩
  have htr : threadReplyTrace oracleC1 true 20 itemC1 =
      replyLoop (oracleC1 (some "top1")) 20 0 none := by
    simp only [threadReplyTrace]
    rw [if_pos ⟨trivial, hcond⟩]
    rfl
  have hstep1 : replyLoop (oracleC1 (some "top1")) 20 0 none =
      ⟨⟨20, none⟩, ⟨List.replicate 20 rStub, some "tok"⟩, 0⟩ ::
        replyLoop (oracleC1 (some "top1")) 20 20 (some "tok") := by
    rw [replyLoop_cont (by norm_num) (by refine ⟨by decide, by decide⟩)]
    rfl
  have hstep2 : replyLoop (oracleC1 (some "top1")) 20 20 (some "tok") = [] :=
    replyLoop_neg (by norm_num)
  have htrace : threadReplyTrace oracleC1 true 20 itemC1 =
      [⟨⟨20, none⟩, ⟨List.replicate 20 rStub, some "tok"⟩, 0⟩] := by
    rw [htr, hstep1, hstep2]
  have hrep : (processThread oracleC1 true 20 itemC1).replies =
      inlineReplies itemC1 ++
        (stepsItems [⟨⟨20, none⟩, ⟨List.replicate 20 rStub, some "tok"⟩, 0⟩]).map
          mkReplyComment := by
    simp only [processThread, htrace]
  refine ⟨?_, ?_, ?_, ?_⟩
  · rw [hrep]
    simp [stepsItems, inlineReplies, inlineRawReplies, itemC1]
  · rw [hrep]
    simp [stepsItems, inlineReplies, inlineRawReplies, itemC1]
  · rw [htrace]
    rfl
  · rw [htrace]
    decide

/-- C1 amended: the separately fetched replies (not the total including
inline ones) never exceed maxRepliesPerThread, provided each upstream batch
returns at most the requested number of items; hence the replies sequence
is bounded by inline + maxRepliesPerThread; and each batch is requested
with size min(100, maxRepliesPerThread - fetchedSoFar) where fetchedSoFar
counts only the separately fetched replies. -/
theorem claim_C1_amended (L : ThreadListResponse)
    (oracle : Option String → ReplyRequest → ReplyResponse) (vid : String)
    (budget : Int) (item : RawThreadItem) (hmem : item ∈ L.items)
    (honors : ∀ (pid : Option String) (req : ReplyRequest), 0 < req.limit →
      ((oracle pid req).items.length : Int) ≤ req.limit) :
    processThread oracle true budget item ∈
      (fetch_comment_threads L oracle vid true budget).threads ∧
    (processThread oracle true budget item).replies.length ≤
      (inlineReplies item).length + budget.toNat ∧
    (∀ s ∈ threadReplyTrace oracle true budget item,
      s.req.limit = min 100 (budget - (s.fetchedBefore : Int))) := by
  refine ⟨List.mem_map_of_mem _ hmem, ?_, ?_⟩
  · have hlen : (stepsItems (threadReplyTrace oracle true budget item)).length ≤
        budget.toNat := by
      simp only [threadReplyTrace]
      by_cases hc : itemReplyCount item ≠ 0 ∧
          ((inlineReplies item).length : Int) < itemReplyCount item
      · rw [if_pos ⟨trivial, hc⟩]
        by_cases hb : (0 : Int) < budget
        · have hb2 := replyLoop_items_le (oracle (itemTopRaw item).id) budget
            (honors _) budget.toNat 0 none (by push_cast; omega) (by push_cast; omega)
          push_cast at hb2
          omega
        · rw [replyLoop_neg (by push_cast; omega)]
          simp [stepsItems]
      · rw [if_neg (fun hcc => hc hcc.2)]
        simp [stepsItems]
    simp only [processThread, List.length_append, List.length_map]
    omega
  · intro s hs
    simp only [threadReplyTrace] at hs
    by_cases hc : itemReplyCount item ≠ 0 ∧
        ((inlineReplies item).length : Int) < itemReplyCount item
    · rw [if_pos ⟨trivial, hc⟩] at hs
      have h := replyLoop_inv (oracle (itemTopRaw item).id) budget
        (budget - ((0 : Nat) : Int)).toNat 0 none le_rfl
      exact h.2.2.2.2 s hs
    · rw [if_neg (fun hcc => hc hcc.2)] at hs
      simp at hs

/-- Witness for the amended C1, at the C1 scenario with an upstream that
honors every requested batch size. -/
theorem claim_C1_witness :
    processThread oracleC1 true 20 itemC1 ∈
      (fetch_comment_threads ⟨[itemC1], none⟩ oracleC1 "v" true 20).threads ∧
    (processThread oracleC1 true 20 itemC1).replies.length ≤
      (inlineReplies itemC1).length + (20 : Int).toNat := by
  have h := claim_C1_amended ⟨[itemC1], none⟩ oracleC1 "v" 20 itemC1 (by simp)
    (by
      intro pid req hl
      simp only [oracleC1, List.length_replicate]
      omega)
  exact ⟨h.1, h.2.1⟩

/-! ## Claim C2 -/

/-- C2, as stated, is false on the code: on the short-link host the code
returns the entire path with leading slashes stripped, not only the first
path segment, as the two-segment URL shows. -/
theorem claim_C2_counterexample :
    extract_video_id_from_url "https://youtu.be/abc/def" = some "abc/def" ∧
    ¬ extract_video_id_from_url "https://youtu.be/abc/def" = some "abc" := by
  exact ⟨by decide, by decide⟩

/-- C2 amended: for a URL whose host is exactly youtu.be, the resolver
returns the entire URL-parsed path stripped of its leading slashes (absent
when that is empty); the path excludes any `;params` suffix of its last
segment and any tab/CR/newline removed by URL parsing, so the resolver
returns the id verbatim exactly for short-link URLs whose id contains no
slash, question mark, hash, semicolon, tab, carriage return or newline. -/
theorem claim_C2_amended :
    (∀ url : String, (urlparse url).netloc = "youtu.be".data →
      extract_video_id_from_url url =
        (if (urlparse url).path.dropWhile (fun c => c = '/') = [] then none
         else some (String.mk ((urlparse url).path.dropWhile (fun c => c = '/'))))) ∧
    (∀ id : String, id ≠ "" →
      (∀ c ∈ id.data, ¬ c = '/' ∧ ¬ c = '?' ∧ ¬ c = '#' ∧ ¬ c = ';' ∧
        ¬ c = '\t' ∧ ¬ c = '\r' ∧ ¬ c = '\n') →
      extract_video_id_from_url ("https://youtu.be/" ++ id) = some id) := by
  constructor
  · intro url h
    simp only [extract_video_id_from_url]
    rw [if_pos h]
  · intro id hne h
    have hu := urlparse_shortlink id h
    have hnil : ¬ id.data = [] := by
      intro hc
      apply hne
      have h2 := congrArg String.mk hc
      rw [String.mk_data_eq] at h2
      exact h2
    have hdw : List.dropWhile (fun c => c = '/') ('/' :: id.data) = id.data := by
      rw [List.dropWhile_cons, if_pos (by decide)]
      apply dropWhile_of_all
      intro c hc
      exact decide_eq_false (h c hc).1
    simp only [extract_video_id_from_url, hu, if_true]
    rw [hdw, if_neg hnil, String.mk_data_eq]

/-- Witness for the amended C2 at a concrete short-link URL. -/
theorem claim_C2_witness :
    ("dQw4w9WgXcQ" : String) ≠ "" ∧
    extract_video_id_from_url "https://youtu.be/dQw4w9WgXcQ" = some "dQw4w9WgXcQ" := by
  refine ⟨by decide, ?_⟩
  have h := claim_C2_amended.2 "dQw4w9WgXcQ" (by decide) (by decide)
  have heq : ("https://youtu.be/" ++ "dQw4w9WgXcQ" : String) =
      "https://youtu.be/dQw4w9WgXcQ" := rfl
  rw [heq] at h
  exact h

/-! ## Claim C3 -/

/-- C3: with includeReplies set and a reported reply count exceeding the
inline replies, the thread's replies are exactly the inline replies
followed by every separately fetched reply in fetch order, appended with
no deduplication against the inline set. -/
theorem claim_C3 (L : ThreadListResponse)
    (oracle : Option String → ReplyRequest → ReplyResponse) (vid : String)
    (m : Int) (item : RawThreadItem) (hmem : item ∈ L.items)
    (hlt : ((inlineReplies item).length : Int) < itemReplyCount item) :
    processThread oracle true m item ∈
      (fetch_comment_threads L oracle vid true m).threads ∧
    threadReplyTrace oracle true m item =
      replyLoop (oracle (itemTopRaw item).id) m 0 none ∧
    (processThread oracle true m item).replies =
      inlineReplies item ++
        (stepsItems (replyLoop (oracle (itemTopRaw item).id) m 0 none)).map
          mkReplyComment := by
  have hrc : itemReplyCount item ≠ 0 := by
    have h0 : (0 : Int) ≤ ((inlineReplies item).length : Int) := Int.natCast_nonneg _
    omega
  have htr : threadReplyTrace oracle true m item =
      replyLoop (oracle (itemTopRaw item).id) m 0 none := by
    simp only [threadReplyTrace]
    rw [if_pos ⟨trivial, hrc, hlt⟩]
  refine ⟨List.mem_map_of_mem _ hmem, htr, ?_⟩
  simp only [processThread, htr]

/-- A raw reply with the same id as the one already inline. -/
def rDup : RawComment := ⟨some "rA", none⟩

/-- A second raw reply. -/
def rOther : RawComment := ⟨some "rB", none⟩

/-- The C3 witness thread: one inline reply `rA`, reported count 3. -/
def itemW3 : RawThreadItem :=
  ⟨some "t3", some ⟨some ⟨some "c3", none⟩, some 3⟩, some ⟨some [rDup]⟩⟩

/-- A reply upstream whose batch re-includes the inline comment id. -/
def oracleW3 : Option String → ReplyRequest → ReplyResponse :=
  fun _ _ => ⟨[rDup, rOther], none⟩

/-- Witness for C3: the fetched batch repeats the inline id `rA`, and the
replies sequence keeps both copies. -/
theorem claim_C3_witness :
    itemW3 ∈ (ThreadListResponse.mk [itemW3] none).items ∧
    ((inlineReplies itemW3).length : Int) < itemReplyCount itemW3 ∧
    (processThread oracleW3 true 20 itemW3).replies =
      inlineReplies itemW3 ++
        (stepsItems (replyLoop (oracleW3 (itemTopRaw itemW3).id) 20 0 none)).map
          mkReplyComment ∧
    (processThread oracleW3 true 20 itemW3).replies =
      [mkReplyComment rDup, mkReplyComment rDup, mkReplyComment rOther] := by
  have h := claim_C3 ⟨[itemW3], none⟩ oracleW3 "v" 20 itemW3 (by simp) (by decide)
  have hloop : replyLoop (oracleW3 (itemTopRaw itemW3).id) 20 0 none =
      [⟨mkReq 20 0 none, ⟨[rDup, rOther], none⟩, 0⟩] := by
    rw [replyLoop_stop (by norm_num) (by decide)]
    rfl
  refine ⟨by simp, by decide, h.2.2, ?_⟩
  rw [h.2.2, hloop]
  simp [stepsItems, inlineReplies, inlineRawReplies, itemW3]

/-! ## Claim C4 -/

/-- C4: the per-thread reply loop always terminates — its trace is bounded
by the budget — every non-final iteration saw a truthy continuation token,
a nonempty batch and a counter still below the budget, the final iteration
satisfies one of the three stop conditions (counter reached the budget, no
truthy continuation token, or an empty batch), and the loop runs at least
one iteration exactly when the budget is positive. -/
theorem claim_C4 (oracle : ReplyRequest → ReplyResponse) (budget : Int) :
    ((0 : Int) < budget ↔ replyLoop oracle budget 0 none ≠ []) ∧
    (replyLoop oracle budget 0 none).length ≤ budget.toNat ∧
    (∀ s ∈ (replyLoop oracle budget 0 none).dropLast, contCond budget s) ∧
    (∀ s, (replyLoop oracle budget 0 none).getLast? = some s → stopCond budget s) := by
  have h := replyLoop_inv oracle budget (budget - ((0 : Nat) : Int)).toNat 0 none le_rfl
  refine ⟨?_, ?_, h.2.2.1, h.2.2.2.1⟩
  · constructor
    · intro hb hc
      have hle := h.1.mp hc
      push_cast at hle
      omega
    · intro hne
      by_contra hb
      exact hne (h.1.mpr (by push_cast; omega))
  · have hl := h.2.1
    have he : (budget - ((0 : Nat) : Int)).toNat = budget.toNat := by
      push_cast
      rw [sub_zero]
    rw [he] at hl
    exact hl

/-- The raw comment the C4 witness upstream returns. -/
def rW4 : RawComment := ⟨some "r4", none⟩

/-- An upstream that returns a nonempty batch with no continuation token. -/
def oracleW4 : ReplyRequest → ReplyResponse := fun _ => ⟨[rW4], none⟩

/-- Witness for C4: a nonempty batch without a continuation token stops
the loop after one iteration even though the budget 20 is far from
exhausted. -/
theorem claim_C4_witness :
    (replyLoop oracleW4 20 0 none).length = 1 ∧
    (replyLoop oracleW4 20 0 none).getLast? = some ⟨⟨20, none⟩, ⟨[rW4], none⟩, 0⟩ ∧
    stopCond 20 ⟨⟨20, none⟩, ⟨[rW4], none⟩, 0⟩ := by
  have hloop : replyLoop oracleW4 20 0 none = [⟨⟨20, none⟩, ⟨[rW4], none⟩, 0⟩] := by
    rw [replyLoop_stop (by norm_num) (by decide)]
    rfl
  have hlast : (replyLoop oracleW4 20 0 none).getLast? =
      some ⟨⟨20, none⟩, ⟨[rW4], none⟩, 0⟩ := by
    rw [hloop]
    rfl
  exact ⟨by rw [hloop]; rfl, hlast, (claim_C4 oracleW4 20).2.2.2 _ hlast⟩

/-! ## Claim C5 -/

/-- C5: with includeReplies unset, no reply-listing request is issued and
the thread's replies are exactly the inline replies, regardless of the
reported reply count. -/
theorem claim_C5 (L : ThreadListResponse)
    (oracle : Option String → ReplyRequest → ReplyResponse) (vid : String)
    (m : Int) (item : RawThreadItem) (hmem : item ∈ L.items) :
    processThread oracle false m item ∈
      (fetch_comment_threads L oracle vid false m).threads ∧
    threadReplyTrace oracle false m item = [] ∧
    (processThread oracle false m item).replies = inlineReplies item := by
  have htr : threadReplyTrace oracle false m item = [] := by
    simp [threadReplyTrace]
  exact ⟨List.mem_map_of_mem _ hmem, htr, by simp [processThread, htr, stepsItems]⟩

/-- The C5 witness thread: reported count 7, one inline reply. -/
def itemW5 : RawThreadItem :=
  ⟨some "t5", some ⟨some ⟨some "c5", none⟩, some 7⟩, some ⟨some [rStub]⟩⟩

/-- Witness for C5 at a thread whose reported count exceeds its single
inline reply. -/
theorem claim_C5_witness :
    itemW5 ∈ (ThreadListResponse.mk [itemW5] none).items ∧
    threadReplyTrace oracleNil false 20 itemW5 = [] ∧
    (processThread oracleNil false 20 itemW5).replies = inlineReplies itemW5 := by
  have h := claim_C5 ⟨[itemW5], none⟩ oracleNil "v" 20 itemW5 (by simp)
  exact ⟨by simp, h.2.1, h.2.2⟩

/-! ## Claim C6 -/

/-- C6: the effective page size is the input clamped into [1, 100], and 20
when the input is absent. -/
theorem claim_C6 (n : Int) (o : Option String) :
    (normalize_params (some n) o).1 = max 1 (min n 100) ∧
    (normalize_params none o).1 = 20 := by
  exact ⟨rfl, rfl⟩

/-! ## Claim C7 -/

/-- C7: the effective order is always "relevance" or "time"; it is
"relevance" when the input is absent; any input whose lowercasing is
neither "relevance" nor "time" yields "relevance"; and an input lowercasing
to "time" yields "time". -/
theorem claim_C7 (m : Option Int) (o : Option String) :
    ((normalize_params m o).2 = "relevance" ∨ (normalize_params m o).2 = "time") ∧
    (normalize_params m none).2 = "relevance" ∧
    (∀ s : String, pyLower s ≠ "relevance" → pyLower s ≠ "time" →
      (normalize_params m (some s)).2 = "relevance") ∧
    (∀ s : String, pyLower s = "time" → (normalize_params m (some s)).2 = "time") := by
  refine ⟨?_, rfl, ?_, ?_⟩
  · cases o with
    | none => left; rfl
    | some s =>
      by_cases hs : s = ""
      · subst hs
        left
        rfl
      · simp only [normalize_params]
        rw [if_neg hs]
        by_cases hm : pyLower s = "relevance" ∨ pyLower s = "time"
        · rw [if_pos hm]
          exact hm
        · rw [if_neg hm]
          left
          rfl
  · intro s h1 h2
    simp only [normalize_params]
    by_cases hs : s = ""
    · subst hs
      rfl
    · rw [if_neg hs, if_neg (by tauto)]
  · intro s ht
    have hs : ¬ s = "" := by
      intro h0
      subst h0
      exact absurd ht (by decide)
    simp only [normalize_params]
    rw [if_neg hs, if_pos (Or.inr ht), ht]

/-- Witness for C7 at an unrecognized order and at an uppercase "TIME". -/
theorem claim_C7_witness :
    (pyLower "WEIRD" ≠ "relevance" ∧ pyLower "WEIRD" ≠ "time" ∧
      (normalize_params none (some "WEIRD")).2 = "relevance") ∧
    (pyLower "TIME" = "time" ∧ (normalize_params none (some "TIME")).2 = "time") := by
  refine ⟨⟨by decide, by decide, ?_⟩, ⟨by decide, ?_⟩⟩
  · exact (claim_C7 none (some "WEIRD")).2.2.1 "WEIRD" (by decide) (by decide)
  · exact (claim_C7 none (some "TIME")).2.2.2 "TIME" (by decide)

/-! ## Claim C8 -/

/-- C8: a request with an empty videoId and a url that is empty or yields
no extractable identifier is answered with HTTP 400, an error body, and no
upstream call. -/
theorem claim_C8 (q : Query) (apiKeyEnv : String) (hvid : q.videoId = "")
    (hurl : q.url = "" ∨ extract_video_id_from_url q.url = none) :
    do_GET q apiKeyEnv = ⟨400, true, false⟩ := by
  have hres : resolveVideoId q = "" := by
    rcases hurl with h1 | h2
    · simp [resolveVideoId, h1, hvid]
    · by_cases hu : q.url = ""
      · simp [resolveVideoId, hu, hvid]
      · simp [resolveVideoId, hvid, hu, h2]
  simp [do_GET, hres]

/-- Witness for C8 at a request carrying neither url nor videoId. -/
theorem claim_C8_witness :
    (Query.mk "" "" none none false none 20).videoId = "" ∧
    (Query.mk "" "" none none false none 20).url = "" ∧
    do_GET (Query.mk "" "" none none false none 20) "key" = ⟨400, true, false⟩ := by
  exact ⟨rfl, rfl, claim_C8 (Query.mk "" "" none none false none 20) "key" rfl (Or.inl rfl)⟩

/-! ## Claim C9 -/

/-- C9: missing optional upstream fields are absorbed by defaulting: a
missing likeCount becomes 0 and a missing author channel id becomes
absent, both for top-level comments and for replies, and a missing
totalReplyCount becomes 0; the (total) normalization never fails on them. -/
theorem claim_C9 (r : RawComment) (item : RawThreadItem)
    (oracle : Option String → ReplyRequest → ReplyResponse) (inc : Bool) (m : Int) :
    ((r.snippet.getD emptyCommentSnippet).likeCount = none →
      (mkReplyComment r).likeCount = 0 ∧ (mkTopLevelComment r).likeCount = 0) ∧
    ((r.snippet.getD emptyCommentSnippet).authorChannelId = none →
      (mkReplyComment r).authorChannelId = none ∧
        (mkTopLevelComment r).authorChannelId = none) ∧
    ((item.snippet.getD emptyThreadSnippet).totalReplyCount = none →
      (processThread oracle inc m item).replyCount = 0) := by
  refine ⟨?_, ?_, ?_⟩
  · intro h
    constructor <;> simp [mkReplyComment, mkTopLevelComment, h]
  · intro h
    constructor <;> simp [mkReplyComment, mkTopLevelComment, h, acidValue]
  · intro h
    simp [processThread, itemReplyCount, h]

/-- A raw comment whose likeCount and author channel id are absent. -/
def rW9 : RawComment :=
  ⟨some "c9", some ⟨some "hello", some "alice", none, some "2020", some "2021", none,
    some "p9"⟩⟩

/-- A thread item whose totalReplyCount is absent. -/
def itemW9 : RawThreadItem := ⟨some "t9", some ⟨some rW9, none⟩, none⟩

/-- Witness for C9 at resources with the optional fields absent. -/
theorem claim_C9_witness :
    ((rW9.snippet.getD emptyCommentSnippet).likeCount = none ∧
      (mkReplyComment rW9).likeCount = 0 ∧ (mkTopLevelComment rW9).likeCount = 0) ∧
    ((rW9.snippet.getD emptyCommentSnippet).authorChannelId = none ∧
      (mkReplyComment rW9).authorChannelId = none ∧
        (mkTopLevelComment rW9).authorChannelId = none) ∧
    ((itemW9.snippet.getD emptyThreadSnippet).totalReplyCount = none ∧
      (processThread oracleNil true 20 itemW9).replyCount = 0) := by
  have h := claim_C9 rW9 itemW9 oracleNil true 20
  have h1 := h.1 rfl
  have h2 := h.2.1 rfl
  have h3 := h.2.2 rfl
  exact ⟨⟨rfl, h1.1, h1.2⟩, ⟨rfl, h2.1, h2.2⟩, ⟨rfl, h3⟩⟩

/-! ## Claim C10 -/

/-- C10: maxRepliesPerThread is used unclamped; with includeReplies set
and maxRepliesPerThread ≤ 0 the loop body never runs — no reply-listing
request is issued — and the replies are exactly the inline replies even
when the reported count exceeds them. -/
theorem claim_C10 (L : ThreadListResponse)
    (oracle : Option String → ReplyRequest → ReplyResponse) (vid : String)
    (m : Int) (item : RawThreadItem) (hm : m ≤ 0) (hmem : item ∈ L.items) :
    processThread oracle true m item ∈
      (fetch_comment_threads L oracle vid true m).threads ∧
    threadReplyTrace oracle true m item = [] ∧
    (processThread oracle true m item).replies = inlineReplies item := by
  have htr : threadReplyTrace oracle true m item = [] := by
    simp only [threadReplyTrace]
    by_cases hc : itemReplyCount item ≠ 0 ∧
        ((inlineReplies item).length : Int) < itemReplyCount item
    · rw [if_pos ⟨trivial, hc⟩]
      exact replyLoop_neg (by push_cast; omega)
    · rw [if_neg (fun hcc => hc hcc.2)]
  exact ⟨List.mem_map_of_mem _ hmem, htr, by simp [processThread, htr, stepsItems]⟩

/-- The C10 witness thread: reported count 5 exceeding its one inline
reply, so only the non-positive budget prevents fetching. -/
def itemW10 : RawThreadItem :=
  ⟨some "t10", some ⟨some ⟨some "c10", none⟩, some 5⟩, some ⟨some [rStub]⟩⟩

/-- Witness for C10 at maxRepliesPerThread = 0. -/
theorem claim_C10_witness :
    ((0 : Int) ≤ 0) ∧ itemW10 ∈ (ThreadListResponse.mk [itemW10] none).items ∧
    threadReplyTrace oracleC1 true 0 itemW10 = [] ∧
    (processThread oracleC1 true 0 itemW10).replies = inlineReplies itemW10 := by
  have h := claim_C10 ⟨[itemW10], none⟩ oracleC1 "v" 0 itemW10 le_rfl (by simp)
  exact ⟨le_rfl, by simp, h.2.1, h.2.2⟩
